import Mathlib

/-!
Verification model of the market-data ingestion core of this repository
(`market/services/etl_grouped.py`, `market/services/simple_jobs.py`,
`market/services/trading_days.py`, `market/views_internal.py`).

The Python code is shallowly embedded: external collaborators (the Polygon
HTTP client, the relational store, the wall clock, the checkpoint file) are
modelled as explicit environment parameters; Python exceptions become
`Except` results; Python floats become `ℚ`; Python dates become `ℤ`
(proleptic ordinals, so `date.weekday() = (d - 1) % 7` with Monday = 0);
Python `int`s become `ℤ`.
-/

/-! ### Python primitives -/

/-- Python `str.upper()` (ASCII contents in this code base). -/
def pyUpper (s : String) : String := s.map Char.toUpper

/-- Python `int(q)` on a float/rational: truncation toward zero.
`Int.tdiv` truncates toward zero, and `q.den > 0`. -/
def pyInt (q : ℚ) : ℤ := Int.tdiv q.num q.den

/-- Clamp a Python slice endpoint to an index of a list of length `len`:
negative indices count from the end, everything is clamped into `[0, len]`. -/
def pyIndex (len : ℕ) (i : ℤ) : ℕ :=
  if i < 0 then ((len : ℤ) + i).toNat else min i.toNat len

/-- Python `l[i:j]` (step 1). -/
def pySlice {α : Type} (l : List α) (i j : ℤ) : List α :=
  ((l.drop (pyIndex l.length i)).take (pyIndex l.length j - pyIndex l.length i))

/-! ### `market/services/trading_days.py` -/

/-- Python `date.weekday()` on an ordinal date: Monday = 0, ..., Sunday = 6. -/
def weekdayZ (d : ℤ) : ℤ := (d - 1) % 7

/-- The weekday-walking loop of `last_us_trading_day`; the Python `while`
runs at most twice (Sunday → Friday), `7` units of fuel are more than enough. -/
def lastTradingAux : ℕ → ℤ → ℤ
  | 0, d => d
  | n + 1, d => if weekdayZ d ≥ 5 then lastTradingAux n (d - 1) else d

/-- Python `last_us_trading_day(ref)`: step back while the date falls on Sat/Sun. -/
def last_us_trading_day (d : ℤ) : ℤ := lastTradingAux 7 d

/-! ### Symbol canonicalisation (`etl_grouped.py` lines 142-152) -/

/-- The cleansing inside `sorted({(s or "").upper().strip() for s in symbols if s})`:
drop falsy entries, uppercase, strip. -/
def cleanedSyms (symbols : List String) : List String :=
  (symbols.filter (· ≠ "")).map (fun s => (pyUpper s).trim)

/-- The canonical universe list, `sorted(set-of-cleaned-symbols)` — sorted, deduplicated. -/
def canonUniverse (symbols : List String) : List String :=
  (cleanedSyms symbols).toFinset.sort (· ≤ ·)

/-- The `CLASS_MAP` lookup with default (used by `_normalize_for_polygon`). -/
def classMap (s : String) : String :=
  if s = "BRK" then "BRK.B"
  else if s = "BRK.B" then "BRK.B"
  else if s = "BRK.A" then "BRK.A"
  else if s = "BF" then "BF.B"
  else if s = "BF.B" then "BF.B"
  else if s = "BF.A" then "BF.A"
  else s

/-- Python `_normalize_for_polygon(sym)`. -/
def _normalize_for_polygon (sym : String) : String :=
  classMap ((pyUpper sym).trim)

/-- Python `_alt_class_symbol(sym_norm)`: swap a `.B` share-class spelling for `.A`
and vice versa. -/
def _alt_class_symbol (sym_norm : String) : Option String :=
  let s := pyUpper sym_norm
  if s.endsWith ".B" then some (s.dropRight 2 ++ ".A")
  else if s.endsWith ".A" then some (s.dropRight 2 ++ ".B")
  else none

/-- The lookup `orig_to_norm.get(sym, sym)`: the dict is a comprehension over the
canonical universe, so the lookup normalises members and is the identity
elsewhere. -/
def origToNorm (uni : List String) (sym : String) : String :=
  if sym ∈ uni then _normalize_for_polygon sym else sym

/-- The `norm_to_orig` inverted mapping, first-seen wins, built by iterating the
canonical universe in order (`setdefault`). -/
def normToOrig : List String → String → Option String
  | [], _ => none
  | o :: rest, n =>
    if _normalize_for_polygon o = n then some o else normToOrig rest n

/-! ### `market/services/etl_grouped.py` — data model -/

/-- Exceptions the embedded code distinguishes: `PermissionError` (Polygon
403), `requests.HTTPError` (carrying an optional status code), and any other
exception (connection errors, timeouts, database errors, ...). -/
inductive PyExc
  | perm
  | httpErr (status : Option ℤ)
  | otherExc
deriving DecidableEq

/-- An OHLCV row as circulated between the client and the upsert helpers
(keys `symbol`, `open`, `high`, `low`, `close`, `adj_close`, `volume`). -/
structure Bar where
  symbol : String
  open_ : Option ℚ
  high : Option ℚ
  low : Option ℚ
  close : Option ℚ
  adj_close : Option ℚ
  volume : ℤ
deriving DecidableEq

/-- Python `_coerce_row_for_upsert(date, symbol_orig, r)`: keep the original
spelling, default `adj_close` to `close`. -/
def _coerce_row_for_upsert (symbol_orig : String) (r : Bar) : Bar :=
  { symbol := symbol_orig
    open_ := r.open_
    high := r.high
    low := r.low
    close := r.close
    adj_close := match r.adj_close with | none => r.close | some a => some a
    volume := r.volume }

/-- External collaborators of one run of the grouped-then-fallback fetcher:
`grouped` is the outcome of `cli.grouped_daily_stocks(date)`, `eod s` the
outcome of `cli.eod_bar(s, date)`, `upsertErr` makes every non-empty store
upsert raise (a database failure), `clock k` is the `k`-th reading of
`time.monotonic()`, and `today` feeds `last_us_trading_day()` when no target
date is given. -/
structure FetchEnv where
  today : ℤ
  grouped : Except PyExc (List Bar)
  eod : String → Except PyExc (Option Bar)
  upsertErr : Bool
  clock : ℕ → ℚ

/-- The environment-variable configuration read at module import. -/
structure EtlConfig where
  POLYGON_RPM : ℤ
  INTERNAL_SLEEP : ℚ
  INTERNAL_MAX_SECONDS : ℚ
  INTERNAL_FALLBACK_BR : ℤ
deriving DecidableEq

/-- The stats dict returned by `update_last_candle_grouped_then_fallback`;
`partFlag` models the `"parti" ++ "al"` key. -/
structure EtlStats where
  date : ℤ
  universeCount : ℕ
  grouped_upserted : ℕ
  fallback_attempted : ℕ
  fallback_ok : ℕ
  http_404 : ℕ
  http_other : ℕ
  missing_after : ℤ
  total_effective : ℕ
  elapsed : ℚ
  partFlag : Bool
deriving DecidableEq

/-- Ghost instrumentation of a run: whether the fallback loop broke on the
elapsed-time check, and which universe symbols the fallback loop processed,
in order.  Pure bookkeeping of the execution trace; no stats read it. -/
structure EtlTrace where
  brokeOnTime : Bool
  attempted : List String
deriving DecidableEq

/-- A completed (non-raising) run: the returned stats plus the ghost trace. -/
structure EtlResult where
  stats : EtlStats
  trace : EtlTrace
deriving DecidableEq

/-! ### `etl_grouped.py` — grouped phase and fallback loop -/

/-- The grouped phase (lines 157-169): `PermissionError` degrades to zero
rows, any other exception propagates; rows are filtered to normalized
universe members with a usable close and mapped back to original spelling. -/
def groupedRowsRaw (env : FetchEnv) (uni : List String) : Except PyExc (List Bar) :=
  match env.grouped with
  | .error .perm => .ok []
  | .error e => .error e
  | .ok all_rows =>
      let wanted := uni.map _normalize_for_polygon
      .ok (all_rows.filterMap (fun r =>
        let sym_norm := pyUpper r.symbol
        if sym_norm ∈ wanted ∧ r.close ≠ none then
          some (_coerce_row_for_upsert ((normToOrig uni sym_norm).getD sym_norm) r)
        else none))

/-- The set `got_syms_orig` of original-spelling symbols persisted by the
grouped upsert (line 172). -/
def gotSyms (grows : List Bar) : Finset String := (grows.map (fun b => b.symbol)).toFinset

/-- The list `missing_orig` of universe members without a grouped row (line 173). -/
def missingOrig (uni : List String) (grows : List Bar) : List String :=
  uni.filter (fun s => s ∉ gotSyms grows)

/-- The fallback budget (lines 203-207): burst cap, an RPM-derived bound
computed from the *whole* time box, and a sleep-derived bound from the time
actually left. -/
def fallbackBudget (cfg : EtlConfig) (elapsed : ℚ) : ℤ :=
  let time_left : ℚ := max 0 (cfg.INTERNAL_MAX_SECONDS - elapsed)
  let by_rpm := pyInt ((cfg.POLYGON_RPM : ℚ) * cfg.INTERNAL_MAX_SECONDS)
  let by_sleep := pyInt (time_left / max cfg.INTERNAL_SLEEP 0.05)
  max 0 (min cfg.INTERNAL_FALLBACK_BR (min by_rpm by_sleep))

/-- The local state of the fallback loop (lines 196-201), plus the ghost
trace fields and the index of the next `time.monotonic()` reading. -/
structure FBState where
  fallback_attempted : ℕ
  fallback_ok : ℕ
  http_404 : ℕ
  http_other : ℕ
  processed_in_burst : ℕ
  partFlag : Bool
  brokeOnTime : Bool
  attempted : List String
  clockIdx : ℕ
deriving DecidableEq

/-- Counters as zeroed right before the fallback loop; the first in-loop
clock reading is reading number 2. -/
def initFBState : FBState :=
  { fallback_attempted := 0, fallback_ok := 0, http_404 := 0, http_other := 0
    processed_in_burst := 0, partFlag := false, brokeOnTime := false
    attempted := [], clockIdx := 2 }

/-- One fallback body (the `try/except` of lines 216-241): count the
attempt, fetch, upsert on success; `PermissionError` is swallowed, 404 tries
one alternate class spelling (whose own failures are all swallowed), other
HTTP errors are counted, and any other exception propagates. -/
def fbBody (env : FetchEnv) (uni : List String) (sym_orig : String) (st0 : FBState) :
    Except PyExc FBState :=
  let sym_norm := origToNorm uni sym_orig
  let st := { st0 with fallback_attempted := st0.fallback_attempted + 1
                       attempted := st0.attempted ++ [sym_orig] }
  match env.eod sym_norm with
  | .ok (some _) =>
      if env.upsertErr then .error .otherExc
      else .ok { st with fallback_ok := st.fallback_ok + 1 }
  | .ok none => .ok st
  | .error .perm => .ok st
  | .error (.httpErr status) =>
      if status = some 404 then
        let st := { st with http_404 := st.http_404 + 1 }
        match _alt_class_symbol sym_norm with
        | some alt =>
            let st := { st with fallback_attempted := st.fallback_attempted + 1 }
            match env.eod alt with
            | .ok (some _) =>
                if env.upsertErr then .ok st
                else .ok { st with fallback_ok := st.fallback_ok + 1 }
            | _ => .ok st
        | none => .ok st
      else .ok { st with http_other := st.http_other + 1 }
  | .error .otherExc => .error .otherExc

/-- The fallback loop (lines 209-251) over `missing_orig[:fallback_budget]`:
check the elapsed time before each call, run the body, and break — marking
the run degraded — once the burst budget is consumed. -/
def fbLoop (cfg : EtlConfig) (env : FetchEnv) (uni : List String) (t0 : ℚ) (budget : ℤ) :
    List String → FBState → Except PyExc FBState
  | [], st => .ok st
  | sym :: rest, st =>
    if env.clock st.clockIdx - t0 ≥ cfg.INTERNAL_MAX_SECONDS then
      .ok { st with partFlag := true, brokeOnTime := true, clockIdx := st.clockIdx + 1 }
    else
      match fbBody env uni sym { st with clockIdx := st.clockIdx + 1 } with
      | .error e => .error e
      | .ok st1 =>
        let st2 := { st1 with processed_in_burst := st1.processed_in_burst + 1 }
        if (st2.processed_in_burst : ℤ) ≥ budget then .ok { st2 with partFlag := true }
        else fbLoop cfg env uni t0 budget rest st2

/-- Python `update_last_candle_grouped_then_fallback(universe_symbols, target_date)`
(lines 127-269).  A `.error` result is the run raising that exception to its
caller. -/
def update_last_candle_grouped_then_fallback (cfg : EtlConfig) (env : FetchEnv)
    (universe_symbols : List String) (target_date : Option ℤ) : Except PyExc EtlResult :=
  let t0 := env.clock 0
  let date := target_date.getD (last_us_trading_day env.today)
  let uni_orig := canonUniverse universe_symbols
  match groupedRowsRaw env uni_orig with
  | .error e => .error e
  | .ok grows =>
    if env.upsertErr ∧ grows ≠ [] then .error .otherExc
    else
      let upserted_grouped := grows.length
      let got_syms := gotSyms grows
      let missing_orig := missingOrig uni_orig grows
      let elapsed := env.clock 1 - t0
      if elapsed ≥ cfg.INTERNAL_MAX_SECONDS ∨ missing_orig = [] then
        .ok { stats := { date := date
                         universeCount := uni_orig.length
                         grouped_upserted := upserted_grouped
                         fallback_attempted := 0
                         fallback_ok := 0
                         http_404 := 0
                         http_other := 0
                         missing_after := max 0 ((uni_orig.length : ℤ) - got_syms.card)
                         total_effective := upserted_grouped
                         elapsed := elapsed
                         partFlag := decide (missing_orig ≠ []) }
              trace := { brokeOnTime := false, attempted := [] } }
      else
        let budget := fallbackBudget cfg elapsed
        match fbLoop cfg env uni_orig t0 budget (missing_orig.take budget.toNat) initFBState with
        | .error e => .error e
        | .ok st =>
          let elapsed2 := env.clock st.clockIdx - t0
          let missing_after : ℤ := max 0 ((uni_orig.length : ℤ) - got_syms.card - st.fallback_ok)
          .ok { stats := { date := date
                           universeCount := uni_orig.length
                           grouped_upserted := upserted_grouped
                           fallback_attempted := st.fallback_attempted
                           fallback_ok := st.fallback_ok
                           http_404 := st.http_404
                           http_other := st.http_other
                           missing_after := missing_after
                           total_effective := upserted_grouped + st.fallback_ok
                           elapsed := elapsed2
                           partFlag := st.partFlag || decide (missing_after > 0) }
                trace := { brokeOnTime := st.brokeOnTime, attempted := st.attempted } }

/-! ### `market/services/simple_jobs.py` — resumable batch runner -/

/-- The accumulator of `_dedupe_upper`: strip, uppercase, keep first
occurrences of non-empty results. -/
def dedupeUpperAux : List String → Finset String → List String
  | [], _ => []
  | s :: rest, seen =>
    let u := pyUpper s.trim
    if u ≠ "" ∧ u ∉ seen then u :: dedupeUpperAux rest (insert u seen)
    else dedupeUpperAux rest seen

/-- Python `_dedupe_upper(seq)` (simple_jobs.py lines 23-31). -/
def _dedupe_upper (seq : List String) : List String := dedupeUpperAux seq ∅

/-- A persisted progress file `{"idx": ..., "order": [...]}`. -/
structure Checkpoint where
  idx : ℤ
  order : List String
deriving DecidableEq

/-- Checkpoint loading (lines 167-181): a missing or unreadable file starts
fresh; a falsy persisted order is replaced by the fresh symbols *before* the
set comparison; a set mismatch restarts at cursor 0, otherwise the persisted
cursor is kept. -/
def initProgress (saved : Option Checkpoint) (symbols : List String) :
    List String × ℤ :=
  match saved with
  | none => (symbols, 0)
  | some c =>
    let order := if c.order = [] then symbols else c.order
    if order.toFinset ≠ symbols.toFinset then (symbols, 0)
    else (order, c.idx)

/-- The `PRECALC_*` configuration of one invocation. -/
structure RunCfg where
  max_seconds : ℚ
  burst : ℤ
  tiny_sleep : ℚ
deriving DecidableEq

/-- Collaborators of one runner invocation: `clock k` is the `k`-th
`time.perf_counter()` reading, `taskFails sym j` tells whether the `j`-th
subtask (0 = daily indicators, 1 = weekly indicators, 2 = daily signal) for
`sym` raises, and `excAt i` fires a framework-level exception at the start of
while-iteration `i` (the ghost oracle for the outer `except` boundary). -/
structure RunEnv where
  clock : ℕ → ℚ
  taskFails : String → ℕ → Bool
  excAt : ℕ → Bool

/-- The loop-local state of one invocation: cursor, counters, the index of
the next clock reading, the while-iteration counter, and the ghost trace of
symbols whose subtask block actually ran. -/
structure RunState where
  idx : ℤ
  processed : ℕ
  errors : ℕ
  k : ℕ
  iter : ℕ
  processedSyms : List String
deriving DecidableEq

/-- How many of the three subtasks for `sym` raise (each failure only
increments the error counter). -/
def countFails (env : RunEnv) (sym : String) : ℕ :=
  (if env.taskFails sym 0 then 1 else 0) + (if env.taskFails sym 1 then 1 else 0) +
    (if env.taskFails sym 2 then 1 else 0)

/-- The inner `for sym in batch` loop (lines 192-207): check the elapsed
time before each symbol and break out of the batch when exceeded; otherwise
run the three subtasks and count the symbol as processed. -/
def batchLoop (cfg : RunCfg) (env : RunEnv) (t0 : ℚ) :
    List String → RunState → RunState
  | [], st => st
  | sym :: rest, st =>
    if env.clock st.k - t0 ≥ cfg.max_seconds then { st with k := st.k + 1 }
    else
      batchLoop cfg env t0 rest
        { st with k := st.k + 1
                  errors := st.errors + countFails env sym
                  processed := st.processed + 1
                  processedSyms := st.processedSyms ++ [sym] }

/-- The outer time-boxed `while` (lines 189-210): on each iteration the
framework-exception oracle may fire (returning `true` as second component);
otherwise the loop takes the next burst `order[idx:end]`, runs the batch,
and — crucially — sets `idx` to the end of the *full* burst. `fuel` bounds
the number of iterations; with a positive burst, `order.length` iterations
always suffice. -/
def whileLoop (cfg : RunCfg) (env : RunEnv) (t0 : ℚ) (order : List String) (n : ℤ) :
    ℕ → RunState → RunState × Bool
  | 0, st => (st, false)
  | fuel + 1, st =>
    if env.excAt st.iter then (st, true)
    else if env.clock st.k - t0 < cfg.max_seconds ∧ st.idx < n then
      let st1 := { st with k := st.k + 1 }
      let endi := min n (st1.idx + cfg.burst)
      let st2 := batchLoop cfg env t0 (pySlice order st1.idx endi) st1
      whileLoop cfg env t0 order n fuel { st2 with idx := endi, iter := st2.iter + 1 }
    else ({ st with k := st.k + 1 }, false)

/-- What the invocation finally does to the progress file. -/
inductive StoreAct
  | save (c : Checkpoint)
  | delete
  | noop
deriving DecidableEq

/-- The `error` key of the returned payload, when present. -/
inductive RunErr
  | universe_empty
  | framework
deriving DecidableEq

/-- The JSON payload of `compute_indicators_and_signals_all`, plus the store
action and the ghost fields `finalIdx`, `order`, `processedSyms`. -/
structure RunResult where
  ok : Bool
  partFlag : Bool
  err : Option RunErr
  count_symbols : ℕ
  processed : ℕ
  errors : ℕ
  remaining : ℤ
  elapsed : ℚ
  store : StoreAct
  finalIdx : ℤ
  order : List String
  processedSyms : List String
deriving DecidableEq

/-- Python `compute_indicators_and_signals_all` (lines 84-264), for an explicit
symbol list: resolve and dedupe the universe, load the checkpoint, run the
time-boxed loop, and persist (on the framework-exception path or a parked
run) or delete (on completion) the progress file. -/
def compute_indicators_and_signals_all (cfg : RunCfg) (env : RunEnv)
    (input : List String) (saved : Option Checkpoint) (fuel : ℕ) : RunResult :=
  let t0 := env.clock 0
  let symbols := _dedupe_upper input
  if symbols = [] then
    { ok := false, partFlag := true, err := some .universe_empty
      count_symbols := 0, processed := 0, errors := 0, remaining := 0, elapsed := 0
      store := .noop, finalIdx := 0, order := [], processedSyms := [] }
  else
    let p := initProgress saved symbols
    let order := p.1
    let n : ℤ := order.length
    let st0 : RunState :=
      { idx := p.2, processed := 0, errors := 0, k := 1, iter := 0, processedSyms := [] }
    let r := whileLoop cfg env t0 order n fuel st0
    let st := r.1
    let elapsed := env.clock st.k - t0
    if r.2 then
      { ok := false, partFlag := true, err := some .framework
        count_symbols := symbols.length, processed := st.processed, errors := st.errors
        remaining := max 0 (n - st.idx), elapsed := elapsed
        store := .save ⟨st.idx, order⟩, finalIdx := st.idx, order := order
        processedSyms := st.processedSyms }
    else
      { ok := true, partFlag := decide (st.idx < n), err := none
        count_symbols := symbols.length, processed := st.processed, errors := st.errors
        remaining := max 0 (n - st.idx), elapsed := elapsed
        store := if st.idx < n then .save ⟨st.idx, order⟩ else .delete
        finalIdx := st.idx, order := order
        processedSyms := st.processedSyms }

/-! ### `market/views_internal.py` — auto-backfill estimation -/

/-- The `while d > start_d and count < cap` loop of
`_trading_days_between_exclusive`; `count < cap` is enforced by the fuel,
which starts at `cap.toNat`. -/
def tdbeLoop (start_d : ℤ) : ℕ → ℤ → ℕ → ℕ
  | 0, _, count => count
  | fuel + 1, d, count =>
    if d > start_d then tdbeLoop start_d fuel (last_us_trading_day (d - 1)) (count + 1)
    else count

/-- Python `_trading_days_between_exclusive(start_d, end_d, cap)` (lines 262-276). -/
def _trading_days_between_exclusive (start_d end_d : ℤ) (cap : ℤ) : ℕ :=
  if start_d ≥ end_d then 0
  else tdbeLoop start_d cap.toNat end_d 0

/-- The clamp `if max_backfill_days < 1: max_backfill_days = 1`
(lines 246-247). -/
def effectiveMaxBackfillDays (raw : ℤ) : ℤ := if raw < 1 then 1 else raw

/-- The effective auto-backfill depth (lines 339-342):
`backfill_days = max(1, min(gap if gap > 0 else 1, max_backfill_days))`. -/
def autoBackfillDays (anchor target : ℤ) (maxDays : ℤ) : ℤ :=
  let gap := _trading_days_between_exclusive anchor target maxDays
  max 1 (min (if 0 < gap then (gap : ℤ) else 1) maxDays)

/-! ### `market/views_internal.py` — `backfill_range` -/

/-- One per-day audit dict of `backfill_range` (lines 490-513): keys that
may be absent are `Option`/`Bool` flags; `partSet` models the per-entry
`"parti" ++ "al"` key, set only on exception paths. -/
structure DayEntry where
  date : ℤ
  stats : Option EtlStats
  error : Bool
  retry1 : Option EtlStats
  retry2 : Option EtlStats
  retry_error : Bool
  partSet : Option Bool
deriving DecidableEq

/-- One day of the range loop: initial fetch (attempt 0), then up to two
in-place retries (attempts 1 and 2) while the previous attempt was degraded;
a retry-phase exception is recorded on the entry instead of aborting. -/
def processDay (fetch : ℤ → ℕ → Except Unit EtlStats) (d : ℤ) : DayEntry :=
  match fetch d 0 with
  | .error _ =>
      { date := d, stats := none, error := true, retry1 := none, retry2 := none
        retry_error := false, partSet := some true }
  | .ok s1 =>
      let base : DayEntry :=
        { date := d, stats := some s1, error := false, retry1 := none, retry2 := none
          retry_error := false, partSet := none }
      if s1.partFlag then
        match fetch d 1 with
        | .error _ => { base with retry_error := true, partSet := some true }
        | .ok s2 =>
          let base2 := { base with retry1 := some s2 }
          if s2.partFlag then
            match fetch d 2 with
            | .error _ => { base2 with retry_error := true, partSet := some true }
            | .ok s3 => { base2 with retry2 := some s3 }
          else base2
      else base

/-- Number of iterations of `while d <= end` starting at `start`. -/
def rangeDays (start endd : ℤ) : ℕ := (endd + 1 - start).toNat

/-- The day loop of `backfill_range`. -/
def rangeLoop (fetch : ℤ → ℕ → Except Unit EtlStats) : ℕ → ℤ → List DayEntry
  | 0, _ => []
  | fuel + 1, d => processDay fetch d :: rangeLoop fetch fuel (d + 1)

/-- The JSON payload of `backfill_range`: `json_ok({"result": out})`, i.e.
`ok = true` via `setdefault` and *only* the audit list — `partSet` models a
top-level `"parti" ++ "al"` key, which this endpoint never writes. -/
structure RangeResponse where
  ok : Bool
  partSet : Option Bool
  result : List DayEntry
deriving DecidableEq

/-- Python `backfill_range(start, end)` (lines 490-516), parameterised by the
fetcher outcome per (day, attempt index). -/
def backfill_range (fetch : ℤ → ℕ → Except Unit EtlStats) (start endd : ℤ) :
    RangeResponse :=
  { ok := true, partSet := none, result := rangeLoop fetch (rangeDays start endd) start }

/-! ### Concrete instances used by the claim analyses -/

/-- The module defaults: `POLYGON_RPM=5`, `INTERNAL_SLEEP=0.20`,
`INTERNAL_MAX_SECONDS=25`, `INTERNAL_FALLBACK_BURST=10`. -/
def cfgDefault : EtlConfig :=
  { POLYGON_RPM := 5, INTERNAL_SLEEP := 0.2, INTERNAL_MAX_SECONDS := 25
    INTERNAL_FALLBACK_BR := 10 }

/-- Default configuration with `INTERNAL_FALLBACK_BURST=1`. -/
def cfgBurst1 : EtlConfig := { cfgDefault with INTERNAL_FALLBACK_BR := 1 }

/-- A clock whose readings are all 0 (instantaneous execution). -/
def zeroClock : ℕ → ℚ := fun _ => 0

/-- A vendor row for `s` with a usable close price. -/
def barWithClose (s : String) : Bar :=
  { symbol := s, open_ := none, high := none, low := none, close := some 1
    adj_close := none, volume := 0 }

/-- An environment whose grouped request fails with HTTP 500
(`raise_for_status` raising `requests.HTTPError`, which `etl_grouped` does
not catch). -/
def envGrouped500 : FetchEnv :=
  { today := 0, grouped := .error (.httpErr (some 500)), eod := fun _ => .ok none
    upsertErr := false, clock := zeroClock }

/-- An environment where the grouped fetch returns only a bar for `"A"` and
every per-symbol fetch succeeds. -/
def envGroupedA : FetchEnv :=
  { today := 0, grouped := .ok [barWithClose "A"]
    eod := fun _ => .ok (some (barWithClose "B")), upsertErr := false, clock := zeroClock }

/-- An environment where the grouped fetch returns a usable `BRK.B` row and
per-symbol fetches succeed: every symbol of the universe `["BRK", "BRK.B"]`
has a grouped row for its normalized spelling. -/
def envClassClash : FetchEnv :=
  { today := 0, grouped := .ok [barWithClose "BRK.B"]
    eod := fun _ => .ok (some (barWithClose "BRK.B")), upsertErr := false, clock := zeroClock }

/-- Runner configuration: 10-second box, bursts of two. -/
def runCfgBurst2 : RunCfg := { max_seconds := 10, burst := 2, tiny_sleep := 0 }

/-- A runner environment whose clock jumps to the 10-second mark at reading
3 — i.e. the time box expires right after the first symbol of the first
burst — with no subtask failures and no framework exception. -/
def runEnvJump : RunEnv :=
  { clock := fun k => if k < 3 then 0 else 10
    taskFails := fun _ _ => false, excAt := fun _ => false }

/-- A runner environment where nothing fails and no time passes. -/
def runEnvQuiet : RunEnv :=
  { clock := zeroClock, taskFails := fun _ _ => false, excAt := fun _ => false }

/-- A degraded stats dict (only `partFlag` matters to `backfill_range`). -/
def statsDegraded : EtlStats :=
  { date := 0, universeCount := 1, grouped_upserted := 0, fallback_attempted := 0
    fallback_ok := 0, http_404 := 0, http_other := 0, missing_after := 1
    total_effective := 0, elapsed := 0, partFlag := true }

/-- A fetcher whose every attempt returns a degraded result: the day stays
still-partial after all retries. -/
def fetchAllDegraded : ℤ → ℕ → Except Unit EtlStats := fun _ _ => .ok statsDegraded

/-- Grouped rows as persisted in the envGroupedA scenario: the single
coerced bar for the symbol A. -/
def c2Grows : List Bar := [_coerce_row_for_upsert "A" (barWithClose "A")]

/-- The fallback-loop state after successfully fetching the one missing
symbol B in the envGroupedA scenario. -/
def fbStateAfterB : FBState :=
  { fallback_attempted := 1, fallback_ok := 1, http_404 := 0, http_other := 0
    processed_in_burst := 1, partFlag := false, brokeOnTime := false
    attempted := ["B"], clockIdx := 3 }

/-- An environment where the grouped fetch returns usable bars for both A
and B. -/
def envGroupedAB : FetchEnv :=
  { today := 0, grouped := .ok [barWithClose "A", barWithClose "B"]
    eod := fun _ => .ok none, upsertErr := false, clock := zeroClock }

/-- Modelled from the spec (§4.1 RateBudgetPlanner), for comparison with the
code's `fallbackBudget`:
`budget = max(0, min(burstCap, floor(rpm*minutesRemaining), floor(secondsRemaining/sleepInterval)))`,
where minutes/seconds remaining are the time left after the grouped attempt. -/
def rateBudgetPlannerSpec (cfg : EtlConfig) (elapsed : ℚ) : ℤ :=
  let secondsRemaining : ℚ := cfg.INTERNAL_MAX_SECONDS - elapsed
  max 0 (min cfg.INTERNAL_FALLBACK_BR
    (min ⌊(cfg.POLYGON_RPM : ℚ) * (secondsRemaining / 60)⌋
      ⌊secondsRemaining / cfg.INTERNAL_SLEEP⌋))

/-! ### Helper lemmas -/

theorem pyInt_eq_floor {q : ℚ} (hq : 0 ≤ q) : pyInt q = ⌊q⌋ := by
  rw [pyInt, Int.tdiv_eq_ediv (Rat.num_nonneg.mpr hq) (by positivity), Rat.floor_def]

theorem pyInt_zero : pyInt 0 = 0 := rfl

/-! ### C8 -/

/-- C8: with auto-backfill enabled, the effective backfill depth always
satisfies `1 ≤ backfill_days ≤ max_backfill_days` (after the cap itself is
clamped to be at least 1); when the anchor is at or beyond the target the
trading-day gap is 0 and the effective depth is still 1. -/
theorem c8_auto_backfill_days_bounds (anchor target raw : ℤ) :
    1 ≤ autoBackfillDays anchor target (effectiveMaxBackfillDays raw) ∧
    autoBackfillDays anchor target (effectiveMaxBackfillDays raw) ≤
      effectiveMaxBackfillDays raw ∧
    (target ≤ anchor →
      _trading_days_between_exclusive anchor target (effectiveMaxBackfillDays raw) = 0 ∧
      autoBackfillDays anchor target (effectiveMaxBackfillDays raw) = 1) := by
  have hcap : 1 ≤ effectiveMaxBackfillDays raw := by
    unfold effectiveMaxBackfillDays; split <;> omega
  have hgap0 : target ≤ anchor →
      _trading_days_between_exclusive anchor target (effectiveMaxBackfillDays raw) = 0 := by
    intro h
    unfold _trading_days_between_exclusive
    rw [if_pos h]
  refine ⟨?_, ?_, fun h => ⟨hgap0 h, ?_⟩⟩
  · simp only [autoBackfillDays]
    exact le_max_left _ _
  · simp only [autoBackfillDays]
    split_ifs <;> exact max_le hcap (min_le_right _ _)
  · simp only [autoBackfillDays, hgap0 h]
    rw [if_neg (lt_irrefl 0), min_eq_left hcap, max_self]

/-- Witness for C8 at `anchor = 5`, `target = 3`, `raw = 5`. -/
theorem c8_auto_backfill_days_bounds_witness :
    1 ≤ autoBackfillDays 5 3 (effectiveMaxBackfillDays 5) ∧
    _trading_days_between_exclusive 5 3 (effectiveMaxBackfillDays 5) = 0 ∧
    autoBackfillDays 5 3 (effectiveMaxBackfillDays 5) = 1 :=
  ⟨(c8_auto_backfill_days_bounds 5 3 5).1,
   ((c8_auto_backfill_days_bounds 5 3 5).2.2 (by decide)).1,
   ((c8_auto_backfill_days_bounds 5 3 5).2.2 (by decide)).2⟩

/-! ### C4 -/

/-- C4 counterexample: at the module defaults with 10 of the 25 seconds
elapsed, the code computes a budget of 10 while the claimed formula
(`floor(rpm*minutesRemaining)` from the time *left*) yields 1. -/
theorem c4_counterexample_budget_mismatch :
    fallbackBudget cfgDefault 10 = 10 ∧ rateBudgetPlannerSpec cfgDefault 10 = 1 ∧
    fallbackBudget cfgDefault 10 ≠ rateBudgetPlannerSpec cfgDefault 10 := by
  refine ⟨?_, ?_, ?_⟩ <;> with_unfolding_all decide

/-- C4 amended: the budget equals
`max(0, min(burstCap, trunc(rpm*maxSeconds), trunc(timeLeft/max(sleep, 0.05))))`
— the RPM bound uses the *whole* invocation time box, not the minutes
remaining — and it is non-negative, and 0 when no time remains. -/
theorem c4_fallback_budget_formula (cfg : EtlConfig) (elapsed : ℚ)
    (hrpm : 0 ≤ cfg.POLYGON_RPM) (hmax : 0 ≤ cfg.INTERNAL_MAX_SECONDS) :
    fallbackBudget cfg elapsed =
      max 0 (min cfg.INTERNAL_FALLBACK_BR
        (min ⌊(cfg.POLYGON_RPM : ℚ) * cfg.INTERNAL_MAX_SECONDS⌋
          ⌊max 0 (cfg.INTERNAL_MAX_SECONDS - elapsed) / max cfg.INTERNAL_SLEEP 0.05⌋)) ∧
    0 ≤ fallbackBudget cfg elapsed ∧
    (cfg.INTERNAL_MAX_SECONDS ≤ elapsed → fallbackBudget cfg elapsed = 0) := by
  have h005 : (0 : ℚ) < max cfg.INTERNAL_SLEEP 0.05 :=
    lt_of_lt_of_le (by norm_num) (le_max_right _ _)
  have h1 : pyInt ((cfg.POLYGON_RPM : ℚ) * cfg.INTERNAL_MAX_SECONDS) =
      ⌊(cfg.POLYGON_RPM : ℚ) * cfg.INTERNAL_MAX_SECONDS⌋ :=
    pyInt_eq_floor (mul_nonneg (by exact_mod_cast hrpm) hmax)
  have h2 : pyInt (max 0 (cfg.INTERNAL_MAX_SECONDS - elapsed) / max cfg.INTERNAL_SLEEP 0.05) =
      ⌊max 0 (cfg.INTERNAL_MAX_SECONDS - elapsed) / max cfg.INTERNAL_SLEEP 0.05⌋ :=
    pyInt_eq_floor (div_nonneg (le_max_left _ _) h005.le)
  refine ⟨?_, le_max_left _ _, ?_⟩
  · rw [fallbackBudget, h1, h2]
  · intro h
    have hz : max 0 (cfg.INTERNAL_MAX_SECONDS - elapsed) = 0 :=
      max_eq_left (by linarith)
    rw [fallbackBudget, hz, zero_div, pyInt_zero]
    omega

/-- Witness for C4 amended at the module defaults with the box exhausted. -/
theorem c4_fallback_budget_formula_witness :
    fallbackBudget cfgDefault 30 = 0 ∧ 0 ≤ fallbackBudget cfgDefault 30 :=
  ⟨(c4_fallback_budget_formula cfgDefault 30 (by decide)
      (by with_unfolding_all decide)).2.2 (by with_unfolding_all decide),
   (c4_fallback_budget_formula cfgDefault 30 (by decide)
      (by with_unfolding_all decide)).2.1⟩

/-! ### C6 -/

/-- C6 counterexample: a checkpoint whose persisted order is the empty list
(a falsy JSON value) has a symbol set that differs from the fresh
resolution, yet the runner silently substitutes the fresh list and *keeps*
the stale cursor instead of resetting it to 0. -/
theorem c6_counterexample_empty_order :
    (Checkpoint.mk 3 []).order.toFinset ≠ (["AAPL"] : List String).toFinset ∧
    initProgress (some (Checkpoint.mk 3 [])) ["AAPL"] ≠ (["AAPL"], 0) ∧
    initProgress (some (Checkpoint.mk 3 [])) ["AAPL"] = (["AAPL"], 3) := by
  refine ⟨?_, ?_, ?_⟩ <;> decide

/-- C6 amended: a missing checkpoint starts fresh; an existing checkpoint
with a *non-empty* persisted order reinitializes (fresh order, cursor 0)
exactly when the symbol sets differ and is kept unchanged when they agree;
but a falsy (empty) persisted order is replaced by the fresh list while the
persisted cursor is kept. -/
theorem c6_checkpoint_init (saved : Option Checkpoint) (symbols : List String) :
    (saved = none → initProgress saved symbols = (symbols, 0)) ∧
    (∀ c, saved = some c → c.order ≠ [] → c.order.toFinset ≠ symbols.toFinset →
      initProgress saved symbols = (symbols, 0)) ∧
    (∀ c, saved = some c → c.order ≠ [] → c.order.toFinset = symbols.toFinset →
      initProgress saved symbols = (c.order, c.idx)) ∧
    (∀ c, saved = some c → c.order = [] →
      initProgress saved symbols = (symbols, c.idx)) := by
  refine ⟨?_, ?_, ?_, ?_⟩
  · rintro rfl; rfl
  · rintro c rfl hne hset
    simp only [initProgress, if_neg hne, if_pos hset]
  · rintro c rfl hne hset
    simp only [initProgress, if_neg hne]
    rw [if_neg (by simp [hset])]
  · rintro c rfl he
    simp only [initProgress, if_pos he]
    rw [if_neg (by simp)]

/-- Witness for C6 amended: a mismatching non-empty persisted order restarts
at cursor 0 with the fresh list. -/
theorem c6_checkpoint_init_witness :
    initProgress (some (Checkpoint.mk 2 ["X"])) ["Y"] = (["Y"], 0) :=
  (c6_checkpoint_init (some (Checkpoint.mk 2 ["X"])) ["Y"]).2.1
    (Checkpoint.mk 2 ["X"]) rfl (by decide) (by decide)

/-! ### C5 helper lemmas -/

theorem rangeLoop_length (fetch : ℤ → ℕ → Except Unit EtlStats) (fuel : ℕ) (d : ℤ) :
    (rangeLoop fetch fuel d).length = fuel := by
  induction fuel generalizing d with
  | zero => rfl
  | succ n ih => simp [rangeLoop, ih]

theorem rangeLoop_get (fetch : ℤ → ℕ → Except Unit EtlStats) (fuel : ℕ) (d : ℤ)
    (i : ℕ) (h : i < (rangeLoop fetch fuel d).length) :
    (rangeLoop fetch fuel d).get ⟨i, h⟩ = processDay fetch (d + i) := by
  induction fuel generalizing d i with
  | zero => simp [rangeLoop_length] at h
  | succ n ih =>
    cases i with
    | zero => simp [rangeLoop]
    | succ j =>
      have := ih (d + 1) j (by simpa [rangeLoop_length] using h)
      simp only [rangeLoop, List.get_cons_succ]
      rw [this]
      congr 1
      push_cast
      ring

theorem processDay_date (fetch : ℤ → ℕ → Except Unit EtlStats) (d : ℤ) :
    (processDay fetch d).date = d := by
  unfold processDay
  rcases fetch d 0 with e | s1
  · rfl
  · dsimp only
    by_cases hb : s1.partFlag = true
    · rw [if_pos hb]
      rcases fetch d 1 with e | s2
      · rfl
      · dsimp only
        by_cases hb2 : s2.partFlag = true
        · rw [if_pos hb2]
          rcases fetch d 2 with e | s3 <;> rfl
        · rw [if_neg hb2]
    · rw [if_neg hb]

theorem processDay_retry_error (fetch : ℤ → ℕ → Except Unit EtlStats) (d : ℤ) :
    (processDay fetch d).retry_error = true → (processDay fetch d).partSet = some true := by
  unfold processDay
  rcases fetch d 0 with e | s1
  · intro h; cases h
  · dsimp only
    by_cases hb : s1.partFlag = true
    · rw [if_pos hb]
      rcases fetch d 1 with e | s2
      · intro _; rfl
      · dsimp only
        by_cases hb2 : s2.partFlag = true
        · rw [if_pos hb2]
          rcases fetch d 2 with e | s3
          · intro _; rfl
          · intro h; cases h
        · rw [if_neg hb2]; intro h; cases h
    · rw [if_neg hb]; intro h; cases h

/-! ### C5 -/

/-- C5 counterexample: with a fetcher that reports a degraded result on
every attempt, day 0 remains still-partial after all of its attempts, yet
the response of `backfill_range` carries no overall partial flag at all —
there is no top-level key that is true — contradicting the claimed
"overall partial flag true iff some day is still-partial". -/
theorem c5_counterexample_no_overall_flag :
    (backfill_range fetchAllDegraded 0 0).partSet = none ∧
    (backfill_range fetchAllDegraded 0 0).partSet ≠ some true ∧
    ((backfill_range fetchAllDegraded 0 0).result.all fun e =>
      e.error || ((e.stats.all (·.partFlag)) && (e.retry1.all (·.partFlag)) &&
        (e.retry2.all (·.partFlag)))) = true := by
  refine ⟨rfl, by decide, by decide⟩

/-- C5 amended: `backfill_range` returns one audit entry per calendar day of
`[start, end]`, in order; the response always has `ok = true` and contains
*no* overall partial flag; a retry-phase exception marks that day's entry
partial. -/
theorem c5_backfill_range_audit (fetch : ℤ → ℕ → Except Unit EtlStats) (start endd : ℤ) :
    (backfill_range fetch start endd).ok = true ∧
    (backfill_range fetch start endd).partSet = none ∧
    (backfill_range fetch start endd).result.length = (endd + 1 - start).toNat ∧
    (∀ i (h : i < (backfill_range fetch start endd).result.length),
      ((backfill_range fetch start endd).result.get ⟨i, h⟩).date = start + i ∧
      (((backfill_range fetch start endd).result.get ⟨i, h⟩).retry_error = true →
        ((backfill_range fetch start endd).result.get ⟨i, h⟩).partSet = some true)) := by
  refine ⟨rfl, rfl, rangeLoop_length _ _ _, ?_⟩
  intro i h
  have hg := rangeLoop_get fetch (rangeDays start endd) start i h
  rw [show (backfill_range fetch start endd).result.get ⟨i, h⟩ =
      (rangeLoop fetch (rangeDays start endd) start).get ⟨i, h⟩ from rfl, hg]
  exact ⟨processDay_date _ _, processDay_retry_error _ _⟩

/-- Witness for C5 amended: two days, the fetcher degraded throughout; the
second entry is dated `start + 1` and the response still reports `ok`. -/
theorem c5_backfill_range_audit_witness :
    (backfill_range fetchAllDegraded 0 1).ok = true ∧
    ((backfill_range fetchAllDegraded 0 1).result.get ⟨1, by decide⟩).date = 0 + 1 :=
  ⟨(c5_backfill_range_audit fetchAllDegraded 0 1).1,
   ((c5_backfill_range_audit fetchAllDegraded 0 1).2.2.2 1 (by decide)).1⟩

/-! ### C1 helper lemmas -/

theorem fbBody_ok (env : FetchEnv) (uni : List String) (sym : String) (st : FBState)
    (hup : env.upsertErr = false) (heod : ∀ x, env.eod x ≠ .error .otherExc) :
    ∃ st', fbBody env uni sym st = .ok st' := by
  simp only [fbBody]
  cases h : env.eod (origToNorm uni sym) with
  | ok o =>
    cases o with
    | none => exact ⟨_, rfl⟩
    | some b =>
      dsimp only
      simp only [hup, Bool.false_eq_true, if_false]
      exact ⟨_, rfl⟩
  | error e =>
    cases e with
    | perm => exact ⟨_, rfl⟩
    | otherExc => exact absurd h (heod _)
    | httpErr status =>
      dsimp only
      by_cases h4 : status = some 404
      · rw [if_pos h4]
        cases halt : _alt_class_symbol (origToNorm uni sym) with
        | none => exact ⟨_, rfl⟩
        | some alt =>
          dsimp only
          cases h2 : env.eod alt with
          | error e2 => exact ⟨_, rfl⟩
          | ok o2 =>
            cases o2 with
            | none => exact ⟨_, rfl⟩
            | some b2 =>
              dsimp only
              simp only [hup, Bool.false_eq_true, if_false]
              exact ⟨_, rfl⟩
      · rw [if_neg h4]
        exact ⟨_, rfl⟩

theorem fbLoop_ok (cfg : EtlConfig) (env : FetchEnv) (uni : List String) (t0 : ℚ)
    (budget : ℤ) (hup : env.upsertErr = false)
    (heod : ∀ x, env.eod x ≠ .error .otherExc) :
    ∀ syms st, ∃ st', fbLoop cfg env uni t0 budget syms st = .ok st' := by
  intro syms
  induction syms with
  | nil => exact fun st => ⟨st, rfl⟩
  | cons s rest ih =>
    intro st
    simp only [fbLoop]
    by_cases ht : env.clock st.clockIdx - t0 ≥ cfg.INTERNAL_MAX_SECONDS
    · rw [if_pos ht]; exact ⟨_, rfl⟩
    · rw [if_neg ht]
      obtain ⟨st1, hb⟩ := fbBody_ok env uni s
        { st with clockIdx := st.clockIdx + 1 } hup heod
      rw [hb]
      dsimp only
      by_cases h2 : ((st1.processed_in_burst + 1 : ℕ) : ℤ) ≥ budget
      · rw [if_pos h2]; exact ⟨_, rfl⟩
      · rw [if_neg h2]; exact ih _

/-! ### C1 -/

/-- C1 counterexample: an HTTP 500 from the grouped request — which the
code's `except PermissionError` handler does not catch — propagates out of
`update_last_candle_grouped_then_fallback` instead of becoming a counter. -/
theorem c1_counterexample_grouped_http500 :
    update_last_candle_grouped_then_fallback cfgDefault envGrouped500 ["AAPL"] (some 0) =
      .error (.httpErr (some 500)) := by
  with_unfolding_all rfl

/-- C1 amended: the fetcher returns a stats dict (raises nothing) provided
the grouped fetch either succeeds or fails with `PermissionError`, the store
upserts do not raise, and no per-symbol fetch raises an exception outside
`PermissionError`/`HTTPError`; outside those conditions (transient network
errors, store failures, non-403 grouped HTTP errors) the exception
propagates to the caller. -/
theorem c1_no_raise_under_handled_failures (cfg : EtlConfig) (env : FetchEnv)
    (input : List String) (td : Option ℤ)
    (hgr : env.grouped = .error .perm ∨ ∃ rows, env.grouped = .ok rows)
    (hup : env.upsertErr = false)
    (heod : ∀ x, env.eod x ≠ .error .otherExc) :
    ∃ res, update_last_candle_grouped_then_fallback cfg env input td = .ok res := by
  cases hgrows : groupedRowsRaw env (canonUniverse input) with
  | error e =>
    exfalso
    rcases hgr with h | ⟨rows, h⟩ <;> simp [groupedRowsRaw, h] at hgrows
  | ok grows =>
  simp only [update_last_candle_grouped_then_fallback]
  rw [hgrows]
  simp only [hup, Bool.false_eq_true, false_and, if_false]
  by_cases hearly : env.clock 1 - env.clock 0 ≥ cfg.INTERNAL_MAX_SECONDS ∨
      missingOrig (canonUniverse input) grows = []
  · rw [if_pos hearly]; exact ⟨_, rfl⟩
  · rw [if_neg hearly]
    obtain ⟨st, hloop⟩ := fbLoop_ok cfg env (canonUniverse input) (env.clock 0)
      (fallbackBudget cfg (env.clock 1 - env.clock 0)) hup heod
      ((missingOrig (canonUniverse input) grows).take
        (fallbackBudget cfg (env.clock 1 - env.clock 0)).toNat) initFBState
    rw [hloop]
    exact ⟨_, rfl⟩

/-- Witness for C1 amended: grouped succeeds with a bar for `A`, the
per-symbol path always succeeds — the run returns a stats dict. -/
theorem c1_no_raise_under_handled_failures_witness :
    ∃ res, update_last_candle_grouped_then_fallback cfgDefault envGroupedA ["A"] (some 0) =
      .ok res :=
  c1_no_raise_under_handled_failures cfgDefault envGroupedA ["A"] (some 0)
    (Or.inr ⟨[barWithClose "A"], rfl⟩) rfl
    (fun x => by simp [envGroupedA])

/-! ### C3 -/

/-- C3: evaluation at the failing input.  Universe `["A","B"]`, burst 2,
10-second box, clock reaching the deadline right before symbol `B`'s
subtasks: the inner loop breaks after processing only `A`, yet the cursor is
advanced to the end of the full burst, so the run reports complete
(`partFlag = false`, `remaining = 0`), deletes the checkpoint, and `B`'s
subtasks were never executed in any invocation — at-least-once fails. -/
theorem c3_runner_skips_symbol_in_final_burst :
    (compute_indicators_and_signals_all runCfgBurst2 runEnvJump ["A", "B"] none 2).store =
      StoreAct.delete ∧
    (compute_indicators_and_signals_all runCfgBurst2 runEnvJump ["A", "B"] none 2).partFlag =
      false ∧
    (compute_indicators_and_signals_all runCfgBurst2 runEnvJump ["A", "B"] none 2).processed =
      1 ∧
    (compute_indicators_and_signals_all runCfgBurst2 runEnvJump ["A", "B"] none 2).processedSyms =
      ["A"] ∧
    "B" ∉ (compute_indicators_and_signals_all runCfgBurst2 runEnvJump
      ["A", "B"] none 2).processedSyms ∧
    (compute_indicators_and_signals_all runCfgBurst2 runEnvJump ["A", "B"] none 2).remaining =
      0 := by
  refine ⟨?_, ?_, ?_, ?_, ?_, ?_⟩ <;> with_unfolding_all decide

/-! ### C9 helper lemmas -/

theorem batchLoop_idx (cfg : RunCfg) (env : RunEnv) (t0 : ℚ) :
    ∀ syms st, (batchLoop cfg env t0 syms st).idx = st.idx := by
  intro syms
  induction syms with
  | nil => intro st; rfl
  | cons s rest ih =>
    intro st
    simp only [batchLoop]
    split
    · rfl
    · rw [ih]

theorem whileLoop_idx_bound (cfg : RunCfg) (env : RunEnv) (t0 : ℚ) (order : List String)
    (n : ℤ) (hb : 0 ≤ cfg.burst) (hn : 0 ≤ n) :
    ∀ fuel st, 0 ≤ st.idx → st.idx ≤ n →
      0 ≤ (whileLoop cfg env t0 order n fuel st).1.idx ∧
        (whileLoop cfg env t0 order n fuel st).1.idx ≤ n := by
  intro fuel
  induction fuel with
  | zero => exact fun st h0 h1 => ⟨h0, h1⟩
  | succ m ih =>
    intro st h0 h1
    simp only [whileLoop]
    split
    · exact ⟨h0, h1⟩
    · split
      · refine ih _ ?_ ?_
        · exact le_min hn (by omega)
        · exact min_le_left _ _
      · exact ⟨h0, h1⟩

theorem initProgress_idx_bounds (saved : Option Checkpoint) (symbols : List String)
    (hsv : ∀ c ∈ saved, 0 ≤ c.idx ∧ c.idx ≤ (c.order.length : ℤ)) :
    0 ≤ (initProgress saved symbols).2 ∧
      (initProgress saved symbols).2 ≤ ((initProgress saved symbols).1.length : ℤ) := by
  rcases saved with _ | c
  · exact ⟨le_refl 0, Int.ofNat_nonneg _⟩
  · have hc := hsv c rfl
    simp only [initProgress]
    by_cases he : c.order = []
    · rw [if_pos he]
      rw [if_neg (by simp)]
      have hidx : c.idx = 0 := by
        rw [he] at hc
        simp at hc
        omega
      rw [hidx]
      exact ⟨le_refl 0, Int.ofNat_nonneg _⟩
    · rw [if_neg he]
      by_cases hset : c.order.toFinset ≠ symbols.toFinset
      · rw [if_pos hset]
        exact ⟨le_refl 0, Int.ofNat_nonneg _⟩
      · rw [if_neg hset]
        exact hc

/-! ### C9 -/

/-- C9: with a sane configuration (non-negative burst) and a loaded
checkpoint that itself satisfies the invariant, every checkpoint the runner
writes — on the normal partial exit or on the framework-exception path —
satisfies `0 ≤ cursor ≤ len(order)`, and the cursor reached within the
invocation never exceeds `len(order)`. -/
theorem c9_checkpoint_cursor_bounds (cfg : RunCfg) (env : RunEnv) (input : List String)
    (saved : Option Checkpoint) (fuel : ℕ) (hb : 0 ≤ cfg.burst)
    (hsv : ∀ c ∈ saved, 0 ≤ c.idx ∧ c.idx ≤ (c.order.length : ℤ)) :
    (∀ c, (compute_indicators_and_signals_all cfg env input saved fuel).store = .save c →
      0 ≤ c.idx ∧ c.idx ≤ (c.order.length : ℤ)) ∧
    0 ≤ (compute_indicators_and_signals_all cfg env input saved fuel).finalIdx ∧
    (compute_indicators_and_signals_all cfg env input saved fuel).finalIdx ≤
      (((compute_indicators_and_signals_all cfg env input saved fuel).order.length : ℤ)) := by
  simp only [compute_indicators_and_signals_all]
  by_cases hempty : _dedupe_upper input = []
  · rw [if_pos hempty]
    refine ⟨fun c hc => ?_, le_refl 0, by simp⟩
    exact absurd hc (by simp)
  · rw [if_neg hempty]
    obtain ⟨h0, h1⟩ := initProgress_idx_bounds saved (_dedupe_upper input) hsv
    have hw := whileLoop_idx_bound cfg env (env.clock 0)
      (initProgress saved (_dedupe_upper input)).1
      ((initProgress saved (_dedupe_upper input)).1.length : ℤ) hb (Int.ofNat_nonneg _)
      fuel
      { idx := (initProgress saved (_dedupe_upper input)).2, processed := 0, errors := 0
        k := 1, iter := 0, processedSyms := [] } h0 h1
    split
    · -- framework-exception path: store = .save ⟨st.idx, order⟩
      refine ⟨fun c hc => ?_, hw.1, hw.2⟩
      dsimp only at hc
      rw [StoreAct.save.injEq] at hc
      rw [← hc]
      exact ⟨hw.1, hw.2⟩
    · -- normal path: save on partial, delete on completion
      refine ⟨fun c hc => ?_, hw.1, hw.2⟩
      dsimp only at hc
      split at hc
      · rw [StoreAct.save.injEq] at hc
        rw [← hc]
        exact ⟨hw.1, hw.2⟩
      · exact absurd hc (by simp)

/-- Witness for C9 at a concrete resumed run (checkpoint cursor 1, three
symbols, bursts of two, nothing fails). -/
theorem c9_checkpoint_cursor_bounds_witness :
    0 ≤ (compute_indicators_and_signals_all runCfgBurst2 runEnvQuiet ["A", "B", "C"]
      (some (Checkpoint.mk 1 ["A", "B", "C"])) 3).finalIdx ∧
    (compute_indicators_and_signals_all runCfgBurst2 runEnvQuiet ["A", "B", "C"]
      (some (Checkpoint.mk 1 ["A", "B", "C"])) 3).finalIdx ≤
      (((compute_indicators_and_signals_all runCfgBurst2 runEnvQuiet ["A", "B", "C"]
        (some (Checkpoint.mk 1 ["A", "B", "C"])) 3).order.length : ℤ)) :=
  (c9_checkpoint_cursor_bounds runCfgBurst2 runEnvQuiet ["A", "B", "C"]
    (some (Checkpoint.mk 1 ["A", "B", "C"])) 3 (by decide)
    (fun c hc => by
      simp only [Option.mem_def, Option.some.injEq] at hc
      rw [← hc]
      exact ⟨by decide, by decide⟩)).2

/-! ### Fallback-loop bookkeeping lemmas (C2, C10) -/

theorem fbBody_fields (env : FetchEnv) (uni : List String) (sym : String) (st st' : FBState)
    (h : fbBody env uni sym st = .ok st') :
    st'.partFlag = st.partFlag ∧ st'.brokeOnTime = st.brokeOnTime ∧
      st'.processed_in_burst = st.processed_in_burst ∧
      st'.attempted = st.attempted ++ [sym] := by
  simp only [fbBody] at h
  cases he : env.eod (origToNorm uni sym) with
  | ok o =>
    rw [he] at h
    cases o with
    | none =>
      injection h with h2
      subst h2
      exact ⟨rfl, rfl, rfl, rfl⟩
    | some b =>
      dsimp only at h
      split at h
      · exact absurd h (by simp)
      · injection h with h2
        subst h2
        exact ⟨rfl, rfl, rfl, rfl⟩
  | error e =>
    rw [he] at h
    cases e with
    | perm =>
      injection h with h2
      subst h2
      exact ⟨rfl, rfl, rfl, rfl⟩
    | otherExc => exact absurd h (by simp)
    | httpErr status =>
      dsimp only at h
      split at h
      · -- 404: one alternate attempt, every outcome swallowed
        split at h
        · -- some alternate spelling
          split at h
          · split at h
            · injection h with h2
              subst h2
              exact ⟨rfl, rfl, rfl, rfl⟩
            · injection h with h2
              subst h2
              exact ⟨rfl, rfl, rfl, rfl⟩
          · injection h with h2
            subst h2
            exact ⟨rfl, rfl, rfl, rfl⟩
        · injection h with h2
          subst h2
          exact ⟨rfl, rfl, rfl, rfl⟩
      · injection h with h2
        subst h2
        exact ⟨rfl, rfl, rfl, rfl⟩

theorem fbLoop_partFlag (cfg : EtlConfig) (env : FetchEnv) (uni : List String) (t0 : ℚ)
    (budget : ℤ) :
    ∀ syms (st st' : FBState), st.partFlag = false → st.brokeOnTime = false →
      fbLoop cfg env uni t0 budget syms st = .ok st' →
      st'.partFlag = (st'.brokeOnTime ||
        decide (budget ≤ (st.processed_in_burst + syms.length : ℤ) ∧ 0 < syms.length)) := by
  intro syms
  induction syms with
  | nil =>
    intro st st' hp hb h
    injection h with h2
    subst h2
    simp [hp, hb]
  | cons s rest ih =>
    intro st st' hp hb h
    simp only [fbLoop] at h
    split at h
    · injection h with h2
      subst h2
      simp
    · cases hbody : fbBody env uni s { st with clockIdx := st.clockIdx + 1 } with
      | error e => rw [hbody] at h; exact absurd h (by simp)
      | ok st1 =>
        rw [hbody] at h
        dsimp only at h
        obtain ⟨hf1, hf2, hf3, _⟩ := fbBody_fields env uni s _ st1 hbody
        by_cases hcond : ((st1.processed_in_burst + 1 : ℕ) : ℤ) ≥ budget
        · rw [if_pos hcond] at h
          injection h with h2
          subst h2
          dsimp only
          have hbt : st1.brokeOnTime = false := by rw [hf2, hb]
          rw [hbt]
          rw [hf3] at hcond
          simp only [Bool.false_or, List.length_cons]
          rw [eq_comm, decide_eq_true_iff]
          constructor
          · push_cast at hcond ⊢
            omega
          · omega
        · rw [if_neg hcond] at h
          have hst2 := ih { st1 with processed_in_burst := st1.processed_in_burst + 1 } st'
            (by dsimp only; rw [hf1, hp]) (by dsimp only; rw [hf2, hb]) h
          rw [hst2]
          congr 1
          rw [decide_eq_decide]
          rw [hf3] at hcond
          dsimp only
          rw [hf3]
          simp only [List.length_cons]
          push_cast at hcond ⊢
          omega

theorem fbLoop_attempted (cfg : EtlConfig) (env : FetchEnv) (uni : List String) (t0 : ℚ)
    (budget : ℤ) :
    ∀ syms (st st' : FBState), fbLoop cfg env uni t0 budget syms st = .ok st' →
      ∃ p, st'.attempted = st.attempted ++ p ∧ p.Sublist syms := by
  intro syms
  induction syms with
  | nil =>
    intro st st' h
    injection h with h2
    subst h2
    exact ⟨[], by simp, List.nil_sublist _⟩
  | cons s rest ih =>
    intro st st' h
    simp only [fbLoop] at h
    split at h
    · injection h with h2
      subst h2
      exact ⟨[], by simp, List.nil_sublist _⟩
    · cases hbody : fbBody env uni s { st with clockIdx := st.clockIdx + 1 } with
      | error e => rw [hbody] at h; exact absurd h (by simp)
      | ok st1 =>
        rw [hbody] at h
        dsimp only at h
        obtain ⟨_, _, _, hf4⟩ := fbBody_fields env uni s _ st1 hbody
        dsimp only at hf4
        split at h
        · injection h with h2
          subst h2
          refine ⟨[s], ?_, List.cons_sublist_cons.2 (List.nil_sublist _)⟩
          exact hf4
        · obtain ⟨p, hp1, hp2⟩ := ih _ _ h
          refine ⟨s :: p, ?_, List.cons_sublist_cons.2 hp2⟩
          dsimp only at hp1
          rw [hp1, hf4]
          simp


/-! ### C2 -/

/-- C2 counterexample: module defaults with burst cap 1, universe
`["A","B"]`, grouped matches only `A`, and the single missing symbol `B` is
fetched successfully well inside the time box.  The budget (1) equals the
missing count (1), nothing timed out, `missing_after = 0` — the claimed
formula gives `partial = false` — yet the code's burst-exhaustion break
reports `partial = true`. -/
theorem c2_counterexample_budget_equals_missing :
    (update_last_candle_grouped_then_fallback cfgBurst1 envGroupedA ["A", "B"]
      (some 0)).map
      (fun r => (r.stats.partFlag, r.stats.missing_after, r.trace.brokeOnTime,
        r.trace.attempted)) = .ok (true, 0, false, ["B"]) ∧
    fallbackBudget cfgBurst1 (envGroupedA.clock 1 - envGroupedA.clock 0) = 1 ∧
    (missingOrig (canonUniverse ["A", "B"]) c2Grows).length = 1 := by
  refine ⟨by with_unfolding_all rfl, by with_unfolding_all decide,
    by with_unfolding_all decide⟩

/-- C2 amended: for a run that reaches the fallback phase and completes
without raising, the returned `partial` is true iff
`missing_after > 0` OR the loop broke on the elapsed-time check OR the
budget was exhausted by the missing queue (`0 < budget ≤ missing count`) —
i.e. the third disjunct of the claimed formula uses `≤`, not `<`. -/
theorem c2_partial_formula (cfg : EtlConfig) (env : FetchEnv) (input : List String)
    (td : Option ℤ) (grows : List Bar) (st : FBState)
    (hg : groupedRowsRaw env (canonUniverse input) = .ok grows)
    (hup : env.upsertErr = false)
    (ht : ¬(env.clock 1 - env.clock 0 ≥ cfg.INTERNAL_MAX_SECONDS ∨
      missingOrig (canonUniverse input) grows = []))
    (hloop : fbLoop cfg env (canonUniverse input) (env.clock 0)
      (fallbackBudget cfg (env.clock 1 - env.clock 0))
      ((missingOrig (canonUniverse input) grows).take
        (fallbackBudget cfg (env.clock 1 - env.clock 0)).toNat)
      initFBState = .ok st) :
    ∃ res, update_last_candle_grouped_then_fallback cfg env input td = .ok res ∧
      res.trace.brokeOnTime = st.brokeOnTime ∧
      (res.stats.partFlag = true ↔
        (0 < res.stats.missing_after ∨ st.brokeOnTime = true ∨
          (1 ≤ fallbackBudget cfg (env.clock 1 - env.clock 0) ∧
            fallbackBudget cfg (env.clock 1 - env.clock 0) ≤
              ((missingOrig (canonUniverse input) grows).length : ℤ)))) := by
  have hbud : (0 : ℤ) ≤ fallbackBudget cfg (env.clock 1 - env.clock 0) := by
    simp only [fallbackBudget]
    exact le_max_left _ _
  have hpf := fbLoop_partFlag cfg env (canonUniverse input) (env.clock 0)
    (fallbackBudget cfg (env.clock 1 - env.clock 0))
    ((missingOrig (canonUniverse input) grows).take
      (fallbackBudget cfg (env.clock 1 - env.clock 0)).toNat)
    initFBState st rfl rfl hloop
  simp only [update_last_candle_grouped_then_fallback]
  rw [hg]
  simp only [hup, Bool.false_eq_true, false_and, if_false]
  rw [if_neg ht]
  rw [hloop]
  refine ⟨_, rfl, rfl, ?_⟩
  dsimp only
  rw [hpf]
  simp only [initFBState, Bool.or_eq_true, decide_eq_true_iff, List.length_take]
  cases hbot : st.brokeOnTime
  · simp only [hbot, Bool.false_eq_true, false_or]
    omega
  · simp [hbot]

/-- Witness for C2 amended: defaults (burst cap 10), universe `["A","B"]`,
grouped matches `A`, fallback fetches `B` successfully — the run returns and
the equivalence holds with a false `partial`. -/
theorem c2_partial_formula_witness :
    ∃ res, update_last_candle_grouped_then_fallback cfgDefault envGroupedA ["A", "B"]
        (some 0) = .ok res ∧
      res.trace.brokeOnTime = fbStateAfterB.brokeOnTime ∧
      (res.stats.partFlag = true ↔
        (0 < res.stats.missing_after ∨ fbStateAfterB.brokeOnTime = true ∨
          (1 ≤ fallbackBudget cfgDefault (envGroupedA.clock 1 - envGroupedA.clock 0) ∧
            fallbackBudget cfgDefault (envGroupedA.clock 1 - envGroupedA.clock 0) ≤
              ((missingOrig (canonUniverse ["A", "B"]) c2Grows).length : ℤ)))) :=
  c2_partial_formula cfgDefault envGroupedA ["A", "B"] (some 0) c2Grows fbStateAfterB
    (by with_unfolding_all rfl) rfl (by with_unfolding_all decide)
    (by with_unfolding_all rfl)

/-! ### C7 helper lemma -/

theorem normToOrig_self (l : List String) (s : String) (hs : s ∈ l)
    (hinj : ∀ a ∈ l, ∀ b ∈ l, _normalize_for_polygon a = _normalize_for_polygon b → a = b) :
    normToOrig l (_normalize_for_polygon s) = some s := by
  induction l with
  | nil => cases hs
  | cons o rest ih =>
    simp only [normToOrig]
    by_cases he : _normalize_for_polygon o = _normalize_for_polygon s
    · rw [if_pos he]
      rw [hinj o (by simp) s hs he]
    · rw [if_neg he]
      have hs' : s ∈ rest := by
        cases hs with
        | head => exact absurd rfl he
        | tail _ hmem => exact hmem
      exact ih hs' (fun a ha b hb =>
        hinj a (List.mem_cons_of_mem _ ha) b (List.mem_cons_of_mem _ hb))

/-! ### C7 -/

/-- C7 counterexample: universe `["BRK", "BRK.B"]` — two symbols that
normalize to the same vendor spelling `BRK.B`.  The grouped fetch returns a
usable row for every universe symbol's normalized form, yet first-seen-wins
back-mapping credits only `BRK`, so the fetcher still performs one fallback
attempt (`fallback_attempted = 1`, not 0). -/
theorem c7_counterexample_class_collision :
    (∀ s ∈ canonUniverse ["BRK", "BRK.B"], ∃ r ∈ [barWithClose "BRK.B"],
      pyUpper r.symbol = _normalize_for_polygon s ∧ r.close ≠ none) ∧
    (update_last_candle_grouped_then_fallback cfgDefault envClassClash ["BRK", "BRK.B"]
      (some 0)).map (fun r => (r.stats.fallback_attempted, r.stats.partFlag)) =
      .ok (1, false) := by
  refine ⟨by with_unfolding_all decide, by with_unfolding_all rfl⟩

/-- C7 amended: if the grouped fetch succeeds with a usable row for every
universe symbol, the store does not fail, *and no two universe symbols
collapse to the same normalized vendor spelling*, then the run performs zero
fallback attempts and returns `partial = false`. -/
theorem c7_full_grouped_match_no_fallback (cfg : EtlConfig) (env : FetchEnv)
    (input : List String) (td : Option ℤ) (rows : List Bar)
    (hg : env.grouped = .ok rows) (hup : env.upsertErr = false)
    (hcover : ∀ s ∈ canonUniverse input, ∃ r ∈ rows,
      pyUpper r.symbol = _normalize_for_polygon s ∧ r.close ≠ none)
    (hinj : ∀ a ∈ canonUniverse input, ∀ b ∈ canonUniverse input,
      _normalize_for_polygon a = _normalize_for_polygon b → a = b) :
    ∃ res, update_last_candle_grouped_then_fallback cfg env input td = .ok res ∧
      res.stats.fallback_attempted = 0 ∧ res.stats.partFlag = false := by
  cases hgrows : groupedRowsRaw env (canonUniverse input) with
  | error e => exact absurd hgrows (by simp [groupedRowsRaw, hg])
  | ok grows =>
    have hgrows' := hgrows
    simp only [groupedRowsRaw, hg, Except.ok.injEq] at hgrows'
    have hmiss : missingOrig (canonUniverse input) grows = [] := by
      rw [missingOrig, List.filter_eq_nil_iff]
      intro s hs
      simp only [decide_eq_true_eq, not_not]
      obtain ⟨r, hr, hsym, hclose⟩ := hcover s hs
      have hmem : _coerce_row_for_upsert s r ∈ grows := by
        rw [← hgrows']
        rw [List.mem_filterMap]
        refine ⟨r, hr, ?_⟩
        rw [hsym]
        rw [if_pos ⟨List.mem_map_of_mem _ hs, hclose⟩]
        rw [normToOrig_self (canonUniverse input) s hs hinj]
        rfl
      rw [gotSyms, List.mem_toFinset, List.mem_map]
      exact ⟨_, hmem, rfl⟩
    simp only [update_last_candle_grouped_then_fallback]
    rw [hgrows]
    simp only [hup, Bool.false_eq_true, false_and, if_false]
    rw [if_pos (Or.inr hmiss)]
    refine ⟨_, rfl, rfl, ?_⟩
    dsimp only
    rw [hmiss]
    simp

/-- Witness for C7 amended: universe `["A","B"]` with grouped rows for both
and no normalization collision — no fallback attempts, complete result. -/
theorem c7_full_grouped_match_no_fallback_witness :
    ∃ res, update_last_candle_grouped_then_fallback cfgDefault envGroupedAB ["A", "B"]
        (some 0) = .ok res ∧
      res.stats.fallback_attempted = 0 ∧ res.stats.partFlag = false :=
  c7_full_grouped_match_no_fallback cfgDefault envGroupedAB ["A", "B"] (some 0)
    [barWithClose "A", barWithClose "B"] rfl rfl
    (by with_unfolding_all decide) (by with_unfolding_all decide)

/-! ### C10 -/

/-- C10: the fetcher canonicalizes its input to a sorted deduplicated
uppercase list: two inputs with the same trimmed-and-uppercased symbol set
yield identical runs, and in any completed run the fallback symbols were
attempted in strictly increasing lexicographic order (a sublist of the
canonical universe), not caller order. -/
theorem c10_canonicalization_invariance (cfg : EtlConfig) (env : FetchEnv) (td : Option ℤ)
    (xs ys : List String)
    (h : (cleanedSyms xs).toFinset = (cleanedSyms ys).toFinset) :
    update_last_candle_grouped_then_fallback cfg env xs td =
      update_last_candle_grouped_then_fallback cfg env ys td ∧
    (∀ res, update_last_candle_grouped_then_fallback cfg env xs td = .ok res →
      List.Sorted (· < ·) res.trace.attempted ∧
      res.trace.attempted.Sublist (canonUniverse xs)) := by
  have hc : canonUniverse xs = canonUniverse ys := by
    unfold canonUniverse
    rw [h]
  constructor
  · simp only [update_last_candle_grouped_then_fallback]
    rw [hc]
  · intro res
    have hsorted : List.Sorted (· < ·) (canonUniverse xs) := Finset.sort_sorted_lt _
    simp only [update_last_candle_grouped_then_fallback]
    cases hg : groupedRowsRaw env (canonUniverse xs) with
    | error e => intro hres; exact absurd hres (by simp)
    | ok grows =>
      dsimp only
      split
      · intro hres; exact absurd hres (by simp)
      · split
        · intro hres
          injection hres with h2
          rw [← h2]
          exact ⟨List.sorted_nil, List.nil_sublist _⟩
        · cases hloop : fbLoop cfg env (canonUniverse xs) (env.clock 0)
            (fallbackBudget cfg (env.clock 1 - env.clock 0))
            ((missingOrig (canonUniverse xs) grows).take
              (fallbackBudget cfg (env.clock 1 - env.clock 0)).toNat)
            initFBState with
          | error e => intro hres; exact absurd hres (by simp)
          | ok st =>
            intro hres
            dsimp only at hres
            injection hres with h2
            rw [← h2]
            obtain ⟨p, hp1, hp2⟩ := fbLoop_attempted cfg env (canonUniverse xs)
              (env.clock 0) (fallbackBudget cfg (env.clock 1 - env.clock 0)) _
              initFBState st hloop
            have hatt : st.attempted = p := by simpa [initFBState] using hp1
            have hsub : p.Sublist (canonUniverse xs) :=
              (hp2.trans (List.take_sublist _ _)).trans (List.filter_sublist _)
            dsimp only
            rw [hatt]
            exact ⟨List.Pairwise.sublist hsub hsorted, hsub⟩

/-- Witness for C10: two permuted, differently-cased, whitespace-padded
inputs with the same cleaned symbol set produce identical runs. -/
theorem c10_canonicalization_invariance_witness :
    update_last_candle_grouped_then_fallback cfgDefault envGroupedA ["b", "a"] (some 0) =
      update_last_candle_grouped_then_fallback cfgDefault envGroupedA ["A", " B "]
        (some 0) :=
  (c10_canonicalization_invariance cfgDefault envGroupedA (some 0) ["b", "a"]
    ["A", " B "] (by with_unfolding_all decide)).1
